import Mathlib

/-!
# tam-grpc-resolver: target parsing, descriptor construction, address computation

A shallow embedding of `builder.go` and `resolver.go`.

Go strings are modelled as lists of characters (`GoString`).  All separators the
program looks for (`:`, `[`, `]`, `.`) are ASCII, so searching and slicing on
characters agrees with Go's byte-level searching and slicing on every
well-formed UTF-8 string.

The program calls three functions of Go's standard library, `net.SplitHostPort`,
`net.ParseIP` and `strings.Split`; they are embedded here as well, following the
library's own control flow, because the program's behaviour is decided by them.
-/

namespace TamResolver

/-- A Go string, as its sequence of characters. -/
abbrev GoString := List Char

deriving instance DecidableEq for Except

/-! ## Library: byte search -/

/-- Go `bytealg.IndexByteString`: index of the first occurrence of `c`, `none` for `-1`. -/
def IndexByteString : GoString → Char → Option Nat
  | [], _ => none
  | x :: xs, c =>
    if x = c then some 0
    else match IndexByteString xs c with
      | some i => some (i + 1)
      | none => none

/-- Go `bytealg.LastIndexByteString`: index of the last occurrence of `c`, `none` for `-1`. -/
def LastIndexByteString : GoString → Char → Option Nat
  | [], _ => none
  | x :: xs, c =>
    match LastIndexByteString xs c with
    | some i => some (i + 1)
    | none => if x = c then some 0 else none

/-! ## Library: `net.SplitHostPort` -/

/-- Go `net.AddrError`. -/
structure AddrError where
  Err : String
  Addr : GoString
  deriving DecidableEq, Repr

def missingPort : String := "missing port in address"

def tooManyColons : String := "too many colons in address"

/-- The closure `addrErr` of `net.SplitHostPort`. -/
def addrErr (addr : GoString) (why : String) : Except AddrError (GoString × GoString) :=
  .error { Err := why, Addr := addr }

/-- The tail of `net.SplitHostPort` after `host`, `j` and `k` are set: the two
bracket scans and the port slice `hostport[i+1:]`. -/
def splitHostPortTail (hostport host : GoString) (i j k : Nat) :
    Except AddrError (GoString × GoString) :=
  if (IndexByteString (hostport.drop j) '[').isSome then
    addrErr hostport "unexpected '[' in address"
  else if (IndexByteString (hostport.drop k) ']').isSome then
    addrErr hostport "unexpected ']' in address"
  else
    .ok (host, hostport.drop (i + 1))

/-- Go `net.SplitHostPort`: splits `host:port`, `[host]:port` on the last colon. -/
def SplitHostPort (hostport : GoString) : Except AddrError (GoString × GoString) :=
  match LastIndexByteString hostport ':' with
  | none => addrErr hostport missingPort
  | some i =>
    if hostport.head? = some '[' then
      match IndexByteString hostport ']' with
      | none => addrErr hostport "missing ']' in address"
      | some end_ =>
        if end_ + 1 = hostport.length then
          addrErr hostport missingPort
        else if end_ + 1 = i then
          splitHostPortTail hostport ((hostport.take end_).drop 1) i 1 (end_ + 1)
        else if hostport.get? (end_ + 1) = some ':' then
          addrErr hostport tooManyColons
        else
          addrErr hostport missingPort
    else
      let host := hostport.take i
      if (IndexByteString host ':').isSome then
        addrErr hostport tooManyColons
      else
        splitHostPortTail hostport host i 0 0

/-! ## Library: `net.ParseIP`

The functions `ParseIP`, `parseIPv4`, `parseIPv6`, `dtoi` and `xtoi` of `net/ip.go` and
`net/parse.go`.  The values parsed stay far below the range of Go's `int`, so
natural numbers stand for it.  `parseTarget` only tests the parsed address
against `nil`, so the embedding keeps whether an address is produced, not its
sixteen bytes. -/

/-- Go `net.big`: bigger than any value that has to be parsed. -/
def big : Nat := 0xFFFFFF

/-- The loop of Go `net.dtoi` with the return statements after it; `n` is the
value so far and `i` the number of characters consumed.  The result is
`(n, i, ok)`. -/
def dtoiLoop : GoString → Nat → Nat → Nat × Nat × Bool
  | [], n, i => if i = 0 then (0, 0, false) else (n, i, true)
  | c :: cs, n, i =>
    if '0' ≤ c ∧ c ≤ '9' then
      if n * 10 + (c.toNat - '0'.toNat) ≥ big then (big, i, false)
      else dtoiLoop cs (n * 10 + (c.toNat - '0'.toNat)) (i + 1)
    else if i = 0 then (0, 0, false) else (n, i, true)

/-- Go `net.dtoi`: decimal to integer, `(value, characters consumed, ok)`. -/
def dtoi (s : GoString) : Nat × Nat × Bool := dtoiLoop s 0 0

/-- The loop of Go `net.xtoi` with the return statements after it. -/
def xtoiLoop : GoString → Nat → Nat → Nat × Nat × Bool
  | [], n, i => if i = 0 then (0, i, false) else (n, i, true)
  | c :: cs, n, i =>
    if '0' ≤ c ∧ c ≤ '9' then
      if n * 16 + (c.toNat - '0'.toNat) ≥ big then (0, i, false)
      else xtoiLoop cs (n * 16 + (c.toNat - '0'.toNat)) (i + 1)
    else if 'a' ≤ c ∧ c ≤ 'f' then
      if n * 16 + (c.toNat - 'a'.toNat + 10) ≥ big then (0, i, false)
      else xtoiLoop cs (n * 16 + (c.toNat - 'a'.toNat + 10)) (i + 1)
    else if 'A' ≤ c ∧ c ≤ 'F' then
      if n * 16 + (c.toNat - 'A'.toNat + 10) ≥ big then (0, i, false)
      else xtoiLoop cs (n * 16 + (c.toNat - 'A'.toNat + 10)) (i + 1)
    else if i = 0 then (0, i, false) else (n, i, true)

/-- Go `net.xtoi`: hexadecimal to integer, `(value, characters consumed, ok)`. -/
def xtoi (s : GoString) : Nat × Nat × Bool := xtoiLoop s 0 0

def IPv4len : Nat := 4

def IPv6len : Nat := 16

/-- The loop `for i := 0; i < IPv4len; i++` of Go `net.parseIPv4`, with `n`
iterations left to run from index `i`.  `none` is `return nil`; otherwise the
rest of the string after the loop.  The octet values are not kept: the program
only tests the parsed address against `nil`. -/
def parseIPv4Loop : Nat → Nat → GoString → Option GoString
  | 0, _, s => some s
  | n + 1, i, s =>
    if s.length = 0 then none
    else if 0 < i ∧ s.head? ≠ some '.' then none
    else
      let s1 := if 0 < i then s.drop 1 else s
      if (dtoi s1).2.2 = false ∨ (dtoi s1).1 > 0xFF then none
      else if (dtoi s1).2.1 > 1 ∧ s1.head? = some '0' then none
      else parseIPv4Loop n (i + 1) (s1.drop (dtoi s1).2.1)

/-- Go `net.parseIPv4`, as "the result is not nil". -/
def parseIPv4 (s : GoString) : Bool :=
  match parseIPv4Loop IPv4len 0 s with
  | some rest => rest.length = 0
  | none => false

/-- The loop `for i < IPv6len` of Go `net.parseIPv6`.  `none` is `return nil`;
otherwise `(i, ellipsis, s)` when the loop is left.  Every iteration that
continues adds 2 to `i`, so eight iterations are enough from `i = 0`. -/
def parseIPv6Loop : Nat → Nat → Int → GoString → Option (Nat × Int × GoString)
  | 0, i, ellipsis, s => some (i, ellipsis, s)
  | fuel + 1, i, ellipsis, s =>
    if ¬ i < IPv6len then some (i, ellipsis, s)
    else if (xtoi s).2.2 = false ∨ (xtoi s).1 > 0xFFFF then none
    else if (xtoi s).2.1 < s.length ∧ s.get? (xtoi s).2.1 = some '.' then
      if ellipsis < 0 ∧ i ≠ IPv6len - IPv4len then none
      else if i + IPv4len > IPv6len then none
      else if parseIPv4 s = false then none
      else some (i + IPv4len, ellipsis, [])
    else
      let s1 := s.drop (xtoi s).2.1
      if s1.length = 0 then some (i + 2, ellipsis, s1)
      else if s1.head? ≠ some ':' ∨ s1.length = 1 then none
      else
        let s2 := s1.drop 1
        if s2.head? = some ':' then
          if ellipsis ≥ 0 then none
          else if (s2.drop 1).length = 0 then some (i + 2, ((i + 2 : Nat) : Int), s2.drop 1)
          else parseIPv6Loop fuel (i + 2) ((i + 2 : Nat) : Int) (s2.drop 1)
        else parseIPv6Loop fuel (i + 2) ellipsis s2

/-- The part of Go `net.parseIPv6` after the leading-ellipsis test. -/
def parseIPv6Rest (ellipsis : Int) (s : GoString) : Bool :=
  match parseIPv6Loop 8 0 ellipsis s with
  | none => false
  | some (i, ellipsis, s) =>
    if s.length ≠ 0 then false
    else if i < IPv6len then (if ellipsis < 0 then false else true)
    else if ellipsis ≥ 0 then false
    else true

/-- Go `net.parseIPv6`, as "the result is not nil". -/
def parseIPv6 (s : GoString) : Bool :=
  if s.length ≥ 2 ∧ s.get? 0 = some ':' ∧ s.get? 1 = some ':' then
    if (s.drop 2).length = 0 then true
    else parseIPv6Rest 0 (s.drop 2)
  else parseIPv6Rest (-1) s

/-- The scan of Go `net.ParseIP` for the first `.` or `:` of `s`. -/
def ParseIPScan (s : GoString) : GoString → Bool
  | [] => false
  | c :: cs =>
    if c = '.' then parseIPv4 s
    else if c = ':' then parseIPv6 s
    else ParseIPScan s cs

/-- Go `net.ParseIP`, as "the result is not nil": `s` is an IPv4 dotted
decimal or an IPv6 literal. -/
def ParseIP (s : GoString) : Bool := ParseIPScan s s

/-! ## Library: `strings.Split` -/

/-- The splitting loop of `strings.Split` for a one-character separator; `cur`
holds the current segment in reverse. -/
def splitLoop (sep : Char) : GoString → GoString → List GoString
  | [], cur => [cur.reverse]
  | c :: cs, cur =>
    if c = sep then cur.reverse :: splitLoop sep cs []
    else splitLoop sep cs (c :: cur)

/-- Go `strings.Split(s, sep)` for a one-character separator: the segments of
`s` between the occurrences of `sep`. -/
def Split (s : GoString) (sep : Char) : List GoString := splitLoop sep s []

/-! ## builder.go -/

def schemeName : GoString := "tam".data

def defaultPort : GoString := "8080".data

/-- The error values of the package; `invalidTarget` is the `fmt.Errorf` of
`parseTarget`, which carries the target and the underlying parse failure. -/
inductive Error where
  | errMissingAddr
  | errEndsWithColon
  | errWrongHostFormat
  | invalidTarget (target : GoString) (err : AddrError)
  deriving DecidableEq, Repr

/-- Translation of `parseTarget`: the result is Go's `(host, port, err)`, with `none` for a
nil error. -/
def parseTarget (target defaultPort : GoString) : GoString × GoString × Option Error :=
  if target = [] then ([], [], some .errMissingAddr)
  else if ParseIP target then (target, defaultPort, none)
  else
    match SplitHostPort target with
    | .ok (host, port) =>
      if port = [] then ([], [], some .errEndsWithColon)
      else if host = [] then ("localhost".data, port, none)
      else (host, port, none)
    | .error _ =>
      match SplitHostPort (target ++ ":".data ++ defaultPort) with
      | .ok (host, port) => (host, port, none)
      | .error err => ([], [], some (.invalidTarget target err))

/-- The fields of `tamResolver`.  `cancelled` is the state of `ctx` (set by `cancel`),
`wg` the counter of the wait group. -/
structure tamResolver where
  appName : GoString
  namespace_ : GoString
  port : GoString
  label : GoString
  cancelled : Bool
  wg : Nat
  deriving DecidableEq, Repr

/-- What the cluster answers while `Build` runs: whether `rest.InClusterConfig`
and `kubernetes.NewForConfig` succeed. -/
structure Cluster where
  inClusterConfig : Bool
  newForConfig : Bool
  deriving DecidableEq, Repr

/-- Outcome of `Build`: a started resolver, a returned error, or `log.Fatalf`. -/
inductive BuildResult where
  | ok (t : tamResolver)
  | error (err : Error)
  | fatal (msg : String)
  deriving DecidableEq, Repr

/-- Translation of `builder.Build` on the endpoint of the target.  The returned resolver has
its wait group at 1 (`t.wg.Add(1)`) and its watcher task started. -/
def Build (env : Cluster) (endpoint : GoString) : BuildResult :=
  match parseTarget endpoint defaultPort with
  | (_, _, some err) => .error err
  | (host, port, none) =>
    let arr := Split host '.'
    if arr.length ≠ 2 then .error .errWrongHostFormat
    else if env.inClusterConfig = false then .fatal "get cluster config failed"
    else if env.newForConfig = false then .fatal "initialize clientset failed"
    else .ok
      { appName := arr.getD 0 []
        namespace_ := arr.getD 1 []
        port := port
        label := "app=".data ++ arr.getD 0 []
        cancelled := false
        wg := 1 }

/-- Translation of `builder.Scheme`. -/
def Scheme : GoString := schemeName

/-! ## resolver.go -/

/-- Kubernetes `corev1.PodPhase`, a string type. -/
abbrev PodPhase := GoString

def PodRunning : PodPhase := "Running".data

/-- Kubernetes `corev1.PodStatus`, the two fields the resolver reads. -/
structure PodStatus where
  Phase : PodPhase
  PodIP : GoString
  deriving DecidableEq, Repr

/-- Kubernetes `corev1.Pod`. -/
structure Pod where
  Status : PodStatus
  deriving DecidableEq, Repr

/-- gRPC `resolver.Address`. -/
structure Address where
  Addr : GoString
  deriving DecidableEq, Repr

/-- gRPC `resolver.State`. -/
structure State where
  Addresses : List Address
  deriving DecidableEq, Repr

/-- The loop of `updatePodAddrs` over `podList.Items`, appending to `podAddrs`. -/
def podAddrsLoop (r : tamResolver) : List Pod → List Address → List Address
  | [], podAddrs => podAddrs
  | pod :: rest, podAddrs =>
    if pod.Status.Phase = PodRunning then
      podAddrsLoop r rest (podAddrs ++ [{ Addr := pod.Status.PodIP ++ ":".data ++ r.port }])
    else podAddrsLoop r rest podAddrs

/-- Translation of `tamResolver.updatePodAddrs`, given the answer of the pod list call: the
list error is returned, otherwise the result is the state handed to
`cc.UpdateState`. -/
def updatePodAddrs (r : tamResolver) (listed : Except String (List Pod)) : Except String State :=
  match listed with
  | .error err => .error err
  | .ok items => .ok { Addresses := podAddrsLoop r items [] }

/-- Where the watcher task is: setting up and syncing the informer, blocked on
`<-r.ctx.Done()`, or returned. -/
inductive WatcherState where
  | syncing
  | waitingDone
  | returned
  deriving DecidableEq, Repr

/-- Where a call of `Close` is: not called, blocked in `r.wg.Wait()` after
`r.cancel()`, or returned. -/
inductive CloseState where
  | notCalled
  | waiting
  | returned
  deriving DecidableEq, Repr

/-- A running session: the resolver with its watcher task and its `Close` call. -/
structure Session where
  r : tamResolver
  watcher : WatcherState
  close : CloseState
  deriving DecidableEq, Repr

/-- The session right after `Build` returned `t`: `go t.watcher()` has been issued. -/
def startSession (t : tamResolver) : Session :=
  { r := t, watcher := .syncing, close := .notCalled }

/-- One step of `tamResolver.watcher`: the informer syncs, then the task blocks
on `<-r.ctx.Done()` and returns once the context is cancelled.  The task never
touches `r.wg`. -/
def watcherStep (s : Session) : Session :=
  match s.watcher with
  | .syncing => { s with watcher := .waitingDone }
  | .waitingDone => if s.r.cancelled then { s with watcher := .returned } else s
  | .returned => s

/-- One step of `tamResolver.Close`: `r.cancel()`, then `r.wg.Wait()`, which
returns when the counter is 0. -/
def closeStep (s : Session) : Session :=
  match s.close with
  | .notCalled => { s with r := { s.r with cancelled := true }, close := .waiting }
  | .waiting => if s.r.wg = 0 then { s with close := .returned } else s
  | .returned => s

/-- Which of the two tasks takes the next step. -/
inductive Task where
  | watcher
  | close
  deriving DecidableEq, Repr

def step (s : Session) : Task → Session
  | .watcher => watcherStep s
  | .close => closeStep s

/-- The session after a schedule of steps. -/
def run (s : Session) (schedule : List Task) : Session := schedule.foldl step s

/-! ## Auxiliary predicates used in the statements -/

/-- A character that is neither a dot, a colon nor an opening bracket. -/
def Plain (x : Char) : Prop := x ≠ '.' ∧ x ≠ ':' ∧ x ≠ '['

/-- The string contains none of `:`, `[`, `]`. -/
def NoSep (s : GoString) : Prop := ':' ∉ s ∧ '[' ∉ s ∧ ']' ∉ s

instance (s : GoString) : Decidable (NoSep s) := by
  unfold NoSep
  infer_instance

/-- The wording "the target with any enclosing square brackets stripped": a target
that starts with `[` and ends with `]` loses both, any other target is kept. -/
def stripBrackets (t : GoString) : GoString :=
  if t.head? = some '[' ∧ t.getLast? = some ']' then (t.dropLast).drop 1 else t

/-- The address of one pod under `port`, as `updatePodAddrs` builds it. -/
def podAddr (port : GoString) (pod : Pod) : Address :=
  { Addr := pod.Status.PodIP ++ ":".data ++ port }

/-- The wording of the address computation: the addresses of the pods of the
snapshot whose phase is Running, in list order. -/
def runningAddrs (port : GoString) (items : List Pod) : List Address :=
  (items.filter (fun pod => decide (pod.Status.Phase = PodRunning))).map (podAddr port)

/-! ## Example data -/

def pod1 : Pod := { Status := { Phase := PodRunning, PodIP := "10.0.0.1".data } }

def pod2 : Pod := { Status := { Phase := "Failed".data, PodIP := "10.0.0.2".data } }

def pod3 : Pod := { Status := { Phase := "Pending".data, PodIP := "10.0.0.3".data } }

def res1 : tamResolver :=
  ⟨"svc".data, "default".data, "9090".data, "app=svc".data, false, 1⟩

/-! ## Lemmas: byte search -/

theorem IndexByteString_of_not_mem (s : GoString) (c : Char) (h : c ∉ s) :
    IndexByteString s c = none := by
  induction s with
  | nil => rfl
  | cons x xs ih =>
    have hx : x ≠ c := fun e => h (by simp [e])
    have hxs : c ∉ xs := fun e => h (by simp [e])
    simp [IndexByteString, hx, ih hxs]

theorem IndexByteString_append_cons (a b : GoString) (c : Char) (h : c ∉ a) :
    IndexByteString (a ++ c :: b) c = some a.length := by
  induction a with
  | nil => simp [IndexByteString]
  | cons x xs ih =>
    have hx : x ≠ c := fun e => h (by simp [e])
    have hxs : c ∉ xs := fun e => h (by simp [e])
    simp [IndexByteString, hx, ih hxs]

theorem IndexByteString_some (s : GoString) (c : Char) (i : Nat)
    (h : IndexByteString s c = some i) :
    c ∉ s.take i ∧ s.get? i = some c := by
  induction s generalizing i with
  | nil => simp [IndexByteString] at h
  | cons x xs ih =>
    by_cases hx : x = c
    · simp [IndexByteString, hx] at h
      subst h
      simp [hx]
    · cases hr : IndexByteString xs c with
      | none => simp [IndexByteString, hx, hr] at h
      | some j =>
        simp [IndexByteString, hx, hr] at h
        subst h
        have := ih j hr
        simp [List.take, this.1]
        exact ⟨fun e => hx e.symm, by simpa using this.2⟩

theorem LastIndexByteString_of_not_mem (s : GoString) (c : Char) (h : c ∉ s) :
    LastIndexByteString s c = none := by
  induction s with
  | nil => rfl
  | cons x xs ih =>
    have hx : x ≠ c := fun e => h (by simp [e])
    have hxs : c ∉ xs := fun e => h (by simp [e])
    simp [LastIndexByteString, hx, ih hxs]

theorem LastIndexByteString_append_cons (a b : GoString) (c : Char) (h : c ∉ b) :
    LastIndexByteString (a ++ c :: b) c = some a.length := by
  induction a with
  | nil => simp [LastIndexByteString, LastIndexByteString_of_not_mem b c h]
  | cons x xs ih => simp [LastIndexByteString, ih]

theorem LastIndexByteString_some (s : GoString) (c : Char) (i : Nat)
    (h : LastIndexByteString s c = some i) :
    c ∉ s.drop (i + 1) ∧ s.get? i = some c := by
  induction s generalizing i with
  | nil => simp [LastIndexByteString] at h
  | cons x xs ih =>
    cases hr : LastIndexByteString xs c with
    | some j =>
      simp [LastIndexByteString, hr] at h
      subst h
      have := ih j hr
      simpa using this
    | none =>
      by_cases hx : x = c
      · simp [LastIndexByteString, hr, hx] at h
        subst h
        have hn : c ∉ xs := by
          intro hm
          obtain ⟨a, b, hab, hb⟩ : ∃ a b, xs = a ++ c :: b ∧ c ∉ b := by
            clear hr ih
            induction xs with
            | nil => simp at hm
            | cons y ys ihy =>
              by_cases hys : c ∈ ys
              · obtain ⟨a, b, hab, hb⟩ := ihy hys
                exact ⟨y :: a, b, by simp [hab], hb⟩
              · have : y = c := by
                  rcases List.mem_cons.mp hm with e | e
                  · exact e.symm
                  · exact absurd e hys
                exact ⟨[], ys, by simp [this], hys⟩
          rw [hab, LastIndexByteString_append_cons a b c hb] at hr
          simp at hr
        simp [hx, hn]
      · simp [LastIndexByteString, hr, hx] at h

/-! ## Lemmas: `net.SplitHostPort` -/

/-- The split of `host:port` when neither part has a colon or a bracket. -/
theorem SplitHostPort_plain (h p : GoString)
    (hc : ':' ∉ h) (hl : '[' ∉ h) (hr : ']' ∉ h)
    (pc : ':' ∉ p) (pl : '[' ∉ p) (pr : ']' ∉ p) :
    SplitHostPort (h ++ ':' :: p) = .ok (h, p) := by
  have hhead : (h ++ ':' :: p).head? ≠ some '[' := by
    cases h with
    | nil => simp
    | cons x xs =>
      simp only [List.cons_append, List.head?_cons, ne_eq, Option.some.injEq]
      intro e
      exact hl (by simp [e])
  have hL : '[' ∉ h ++ ':' :: p := by simp [hl, pl]
  have hR : ']' ∉ h ++ ':' :: p := by simp [hr, pr]
  simp only [SplitHostPort, LastIndexByteString_append_cons h p ':' pc, hhead, if_false,
    List.take_left, IndexByteString_of_not_mem h ':' hc, splitHostPortTail, List.drop_zero,
    IndexByteString_of_not_mem _ '[' hL, IndexByteString_of_not_mem _ ']' hR]
  simp

/-- The split of `[host]:port`. -/
theorem SplitHostPort_bracket (h p : GoString)
    (hl : '[' ∉ h) (hr : ']' ∉ h)
    (pc : ':' ∉ p) (pl : '[' ∉ p) (pr : ']' ∉ p) :
    SplitHostPort ('[' :: h ++ ']' :: ':' :: p) = .ok (h, p) := by
  have e1 : LastIndexByteString ('[' :: h ++ ']' :: ':' :: p) ':' = some (h.length + 2) := by
    have := LastIndexByteString_append_cons ('[' :: h ++ [']']) p ':' pc
    simpa using this
  have e2 : IndexByteString ('[' :: h ++ ']' :: ':' :: p) ']' = some (h.length + 1) := by
    have := IndexByteString_append_cons ('[' :: h) (':' :: p) ']' (by simp [hr])
    simpa using this
  have e3 : IndexByteString (h ++ ']' :: ':' :: p) '[' = none :=
    IndexByteString_of_not_mem _ _ (by simp [hl, pl])
  have e4 : IndexByteString (List.drop (h.length + 1 + 1) ('[' :: h ++ ']' :: ':' :: p)) ']'
      = none := by
    have : List.drop (h.length + 1 + 1) ('[' :: h ++ ']' :: ':' :: p) = ':' :: p := by
      simp
    rw [this]
    exact IndexByteString_of_not_mem _ _ (by simp [pr])
  have e5 : List.drop (h.length + 2 + 1) ('[' :: h ++ ']' :: ':' :: p) = p := by
    simp
  have e6 : List.drop 1 (List.take (h.length + 1) ('[' :: h ++ ']' :: ':' :: p)) = h := by
    simp [List.take]
  simp only [SplitHostPort, e1, e2, splitHostPortTail, e4, e5, e6]
  simp [e3]

/-- A successful split has found a colon: the empty string does not split. -/
theorem SplitHostPort_nil : SplitHostPort [] = addrErr [] missingPort := by rfl

/-! ## Lemmas: `strings.Split` -/

theorem splitLoop_length (sep : Char) (s cur : GoString) :
    (splitLoop sep s cur).length = s.count sep + 1 := by
  induction s generalizing cur with
  | nil => simp [splitLoop]
  | cons c cs ih =>
    by_cases h : c = sep
    · simp [splitLoop, h, ih]
    · simp [splitLoop, h, ih, List.count_cons]

/-- The `strings.Split` function yields one segment more than there are separators. -/
theorem Split_length (s : GoString) (sep : Char) :
    (Split s sep).length = s.count sep + 1 :=
  splitLoop_length sep s []

theorem splitLoop_of_not_mem (sep : Char) (s cur : GoString) (h : sep ∉ s) :
    splitLoop sep s cur = [cur.reverse ++ s] := by
  induction s generalizing cur with
  | nil => simp [splitLoop]
  | cons c cs ih =>
    have hc : c ≠ sep := fun e => h (by simp [e])
    have hcs : sep ∉ cs := fun e => h (by simp [e])
    simp [splitLoop, hc, ih _ hcs]

theorem splitLoop_append_cons (sep : Char) (a b cur : GoString) (h : sep ∉ a) :
    splitLoop sep (a ++ sep :: b) cur = (cur.reverse ++ a) :: splitLoop sep b [] := by
  induction a generalizing cur with
  | nil => simp [splitLoop]
  | cons c cs ih =>
    have hc : c ≠ sep := fun e => h (by simp [e])
    have hcs : sep ∉ cs := fun e => h (by simp [e])
    simp [splitLoop, hc, ih _ hcs]

/-- Splitting `a.b` on the dot when neither side has one. -/
theorem Split_two (a b : GoString) (ha : '.' ∉ a) (hb : '.' ∉ b) :
    Split (a ++ '.' :: b) '.' = [a, b] := by
  simp [Split, splitLoop_append_cons '.' a b [] ha, splitLoop_of_not_mem '.' b [] hb]

/-! ## Lemmas: `net.ParseIP` -/

theorem plain_of_digit (c : Char) (h : '0' ≤ c ∧ c ≤ '9') : Plain c := by
  refine ⟨?_, ?_, ?_⟩ <;> (intro e; subst e; revert h; decide)

theorem plain_of_lower (c : Char) (h : 'a' ≤ c ∧ c ≤ 'f') : Plain c := by
  refine ⟨?_, ?_, ?_⟩ <;> (intro e; subst e; revert h; decide)

theorem plain_of_upper (c : Char) (h : 'A' ≤ c ∧ c ≤ 'F') : Plain c := by
  refine ⟨?_, ?_, ?_⟩ <;> (intro e; subst e; revert h; decide)

theorem plain_counts (l : GoString) (h : ∀ x ∈ l, Plain x) :
    l.count '.' = 0 ∧ l.count ':' = 0 ∧ '[' ∉ l := by
  refine ⟨?_, ?_, ?_⟩
  · exact List.count_eq_zero.mpr (fun hm => (h _ hm).1 rfl)
  · exact List.count_eq_zero.mpr (fun hm => (h _ hm).2.1 rfl)
  · exact fun hm => (h _ hm).2.2 rfl

theorem dtoiLoop_ok (s : GoString) (n i v c : Nat) (h : dtoiLoop s n i = (v, c, true)) :
    ∃ k, c = i + k ∧ k ≤ s.length ∧ ∀ x ∈ s.take k, Plain x := by
  induction s generalizing n i with
  | nil =>
    simp only [dtoiLoop] at h
    split_ifs at h
    · simp at h
    · simp only [Prod.mk.injEq, and_true] at h
      exact ⟨0, by omega, by simp, by simp⟩
  | cons x xs ih =>
    simp only [dtoiLoop] at h
    split_ifs at h with h1 h2 h3
    · simp at h
    · obtain ⟨k, hk, hlen, hp⟩ := ih _ _ h
      refine ⟨k + 1, by omega, by simp [hlen], ?_⟩
      intro y hy
      simp only [List.take_succ_cons, List.mem_cons] at hy
      rcases hy with e | e
      · exact e ▸ plain_of_digit x h1
      · exact hp y e
    · simp at h
    · simp only [Prod.mk.injEq, and_true] at h
      exact ⟨0, by omega, by simp, by simp⟩

theorem xtoiLoop_ok (s : GoString) (n i v c : Nat) (h : xtoiLoop s n i = (v, c, true)) :
    ∃ k, c = i + k ∧ k ≤ s.length ∧ ∀ x ∈ s.take k, Plain x := by
  induction s generalizing n i with
  | nil =>
    simp only [xtoiLoop] at h
    split_ifs at h
    · simp at h
    · simp only [Prod.mk.injEq, and_true] at h
      exact ⟨0, by omega, by simp, by simp⟩
  | cons x xs ih =>
    have key : ∀ m, Plain x → xtoiLoop xs m (i + 1) = (v, c, true) →
        ∃ k, c = i + k ∧ k ≤ (x :: xs).length ∧ ∀ y ∈ (x :: xs).take k, Plain y := by
      intro m hx hm
      obtain ⟨k, hk, hlen, hp⟩ := ih _ _ hm
      refine ⟨k + 1, by omega, by simp [hlen], ?_⟩
      intro y hy
      simp only [List.take_succ_cons, List.mem_cons] at hy
      rcases hy with e | e
      · exact e ▸ hx
      · exact hp y e
    simp only [xtoiLoop] at h
    split_ifs at h with h1 h2 h3 h4 h5 h6 h7
    · simp at h
    · exact key _ (plain_of_digit x h1) h
    · simp at h
    · exact key _ (plain_of_lower x h3) h
    · simp at h
    · exact key _ (plain_of_upper x h5) h
    · simp at h
    · simp only [Prod.mk.injEq, and_true] at h
      exact ⟨0, by omega, by simp, by simp⟩

/-- What a successful `dtoi` consumed: a prefix without dot, colon or bracket. -/
theorem dtoi_ok (s : GoString) (h : (dtoi s).2.2 = true) :
    (dtoi s).2.1 ≤ s.length ∧ ∀ x ∈ s.take (dtoi s).2.1, Plain x := by
  obtain ⟨k, hk, hlen, hp⟩ := dtoiLoop_ok s 0 0 (dtoi s).1 (dtoi s).2.1 (by
    rw [← h]; rfl)
  simp only [Nat.zero_add] at hk
  rw [hk]
  exact ⟨hlen, hp⟩

theorem xtoi_ok (s : GoString) (h : (xtoi s).2.2 = true) :
    (xtoi s).2.1 ≤ s.length ∧ ∀ x ∈ s.take (xtoi s).2.1, Plain x := by
  obtain ⟨k, hk, hlen, hp⟩ := xtoiLoop_ok s 0 0 (xtoi s).1 (xtoi s).2.1 (by
    rw [← h]; rfl)
  simp only [Nat.zero_add] at hk
  rw [hk]
  exact ⟨hlen, hp⟩

theorem parseIPv4Loop_ok (n i : Nat) (s r : GoString) (h : parseIPv4Loop n i s = some r) :
    ∃ pre, s = pre ++ r ∧ pre.count '.' = (if 0 < i then n else n - 1) ∧
      pre.count ':' = 0 ∧ '[' ∉ pre := by
  induction n generalizing i s with
  | zero =>
    simp only [parseIPv4Loop, Option.some.injEq] at h
    exact ⟨[], by simp [h], by simp, by simp, by simp⟩
  | succ n ih =>
    rw [parseIPv4Loop] at h
    by_cases hi : 0 < i
    · simp only [hi, if_true, true_and, ne_eq] at h ⊢
      split_ifs at h with h1 h2 h3 h4
      simp only [not_or, Bool.not_eq_false, not_lt, not_not] at h2 h3
      obtain ⟨pre, hs, hd, hc, hb⟩ := ih _ _ h
      simp only [Nat.zero_lt_succ, if_true] at hd
      obtain ⟨t, ht⟩ : ∃ t, s = '.' :: t := by
        cases s with
        | nil => simp at h2
        | cons x xs =>
          simp only [List.head?_cons, Option.some.injEq] at h2
          exact ⟨xs, by rw [h2]⟩
      subst ht
      simp only [List.drop_succ_cons, List.drop_zero] at hs h3
      obtain ⟨_, hp⟩ := dtoi_ok t h3.1
      obtain ⟨p1, p2, p3⟩ := plain_counts _ hp
      refine ⟨'.' :: (t.take (dtoi t).2.1 ++ pre), ?_, ?_, ?_, ?_⟩
      · rw [List.cons_append, List.append_assoc, ← hs, List.take_append_drop]
      · simp [List.count_cons, List.count_append, p1, hd]
      · simp [List.count_cons, List.count_append, p2, hc]
      · simp [p3, hb]
    · simp only [hi, if_false, false_and] at h ⊢
      split_ifs at h with h1 h3 h4
      simp only [not_or, Bool.not_eq_false, not_lt] at h3
      obtain ⟨pre, hs, hd, hc, hb⟩ := ih _ _ h
      simp only [Nat.zero_lt_succ, if_true] at hd
      obtain ⟨_, hp⟩ := dtoi_ok s h3.1
      obtain ⟨p1, p2, p3⟩ := plain_counts _ hp
      refine ⟨s.take (dtoi s).2.1 ++ pre, ?_, ?_, ?_, ?_⟩
      · rw [List.append_assoc, ← hs, List.take_append_drop]
      · simp [List.count_append, p1, hd]
      · simp [List.count_append, p2, hc]
      · simp [p3, hb]

/-- An accepted dotted decimal has three dots, no colon and no bracket. -/
theorem parseIPv4_ok (s : GoString) (h : parseIPv4 s = true) :
    s.count '.' = 3 ∧ s.count ':' = 0 ∧ '[' ∉ s := by
  unfold parseIPv4 at h
  cases hr : parseIPv4Loop IPv4len 0 s with
  | none => simp [hr] at h
  | some r =>
    simp only [hr, decide_eq_true_eq, List.length_eq_zero] at h
    subst h
    obtain ⟨pre, hs, hd, hc, hb⟩ := parseIPv4Loop_ok _ _ _ _ hr
    simp only [List.append_nil] at hs
    subst hs
    exact ⟨by simpa [IPv4len] using hd, hc, hb⟩

theorem eq_cons_of_head? (l : GoString) (a : Char) (h : l.head? = some a) :
    l = a :: l.drop 1 := by
  cases l with
  | nil => simp at h
  | cons x xs =>
    simp only [List.head?_cons, Option.some.injEq] at h
    simp [h]

/-- Eight iterations are enough: once `i + 2 * fuel` reaches `IPv6len`, more fuel
does not change the result of the IPv6 loop, so the fuel never cuts the loop short. -/
theorem parseIPv6Loop_fuel (fuel k i : Nat) (e : Int) (s : GoString)
    (h : IPv6len ≤ i + 2 * fuel) :
    parseIPv6Loop (fuel + k) i e s = parseIPv6Loop fuel i e s := by
  induction fuel generalizing i e s with
  | zero =>
    cases k with
    | zero => rfl
    | succ k =>
      have hi : ¬ i < IPv6len := by omega
      simp only [Nat.zero_add]
      rw [parseIPv6Loop, parseIPv6Loop, if_pos hi]
  | succ fuel ih =>
    have e1 : fuel + 1 + k = (fuel + k) + 1 := by omega
    rw [e1, parseIPv6Loop, parseIPv6Loop]
    have h2 : IPv6len ≤ (i + 2) + 2 * fuel := by omega
    simp only [ih (i + 2) _ _ h2]

/-- What the IPv6 loop consumed: no bracket, no dot or exactly the three dots of
an IPv4 tail, and enough colons for the groups it counted. -/
theorem parseIPv6Loop_ok (fuel i : Nat) (e : Int) (s : GoString) (i' : Nat) (e' : Int)
    (r : GoString) (h : parseIPv6Loop fuel i e s = some (i', e', r)) :
    ∃ pre, s = pre ++ r ∧ (pre.count '.' = 0 ∨ pre.count '.' = 3) ∧ '[' ∉ pre ∧
      (0 ≤ e → 0 ≤ e') ∧
      (0 ≤ e' → 0 ≤ e ∨ 2 ≤ pre.count ':') ∧
      (e' < 0 → i' ≤ i + 2 * pre.count ':' + 4) := by
  induction fuel generalizing i e s with
  | zero =>
    simp only [parseIPv6Loop, Option.some.injEq, Prod.mk.injEq] at h
    obtain ⟨rfl, rfl, rfl⟩ := h
    exact ⟨[], by simp, by simp, by simp, id, fun h => Or.inl h, fun _ => by omega⟩
  | succ fuel ih =>
    rw [parseIPv6Loop] at h
    dsimp only at h
    split_ifs at h with h1 h2 h3 h4 h5 h6 h7 h8 h9 h10 h11
    · -- trailing IPv4
      simp only [Option.some.injEq, Prod.mk.injEq] at h
      obtain ⟨rfl, rfl, rfl⟩ := h
      simp only [Bool.not_eq_false] at h6
      obtain ⟨p1, p2, p3⟩ := parseIPv4_ok s h6
      refine ⟨s, by simp, Or.inr p1, p3, id, fun h => Or.inl h, fun _ => ?_⟩
      simp [IPv4len]
    · -- end of string after a group
      simp only [Option.some.injEq, Prod.mk.injEq] at h
      obtain ⟨rfl, rfl, rfl⟩ := h
      simp only [not_or, Bool.not_eq_false] at h2
      obtain ⟨_, hp⟩ := xtoi_ok s h2.1
      obtain ⟨p1, p2, p3⟩ := plain_counts _ hp
      refine ⟨s.take (xtoi s).2.1, by simp, Or.inl p1, p3, id, fun h => Or.inl h, fun _ => ?_⟩
      omega
    · -- "::" at the end of the string
      simp only [Option.some.injEq, Prod.mk.injEq] at h
      obtain ⟨rfl, rfl, rfl⟩ := h
      simp only [not_or, Bool.not_eq_false, ne_eq, not_not] at h2 h8
      obtain ⟨_, hp⟩ := xtoi_ok s h2.1
      obtain ⟨p1, p2, p3⟩ := plain_counts _ hp
      have e1 := eq_cons_of_head? _ _ h8.1
      have e2 := eq_cons_of_head? _ _ h9
      refine ⟨s.take (xtoi s).2.1 ++ [':', ':'], ?_, ?_, ?_, fun _ => by omega, fun _ => ?_,
        fun hneg => by omega⟩
      · conv_lhs => rw [← List.take_append_drop (xtoi s).2.1 s, e1, e2]
        simp
      · left; simp [List.count_append, p1, List.count_cons]
      · simp [p3]
      · right; simp [List.count_append, List.count_cons]
    · -- "::" followed by more
      simp only [not_or, Bool.not_eq_false, ne_eq, not_not] at h2 h8
      obtain ⟨_, hp⟩ := xtoi_ok s h2.1
      obtain ⟨p1, p2, p3⟩ := plain_counts _ hp
      have e1 := eq_cons_of_head? _ _ h8.1
      have e2 := eq_cons_of_head? _ _ h9
      obtain ⟨pre, hs, hd, hb, he, hc, hi⟩ := ih _ _ _ h
      have he' : 0 ≤ e' := he (by omega)
      refine ⟨s.take (xtoi s).2.1 ++ ':' :: ':' :: pre, ?_, ?_, ?_, fun _ => he', fun _ => ?_,
        fun hneg => by omega⟩
      · conv_lhs => rw [← List.take_append_drop (xtoi s).2.1 s, e1, e2, hs]
        simp
      · rcases hd with hd | hd
        · left; simp [List.count_append, p1, List.count_cons, hd]
        · right; simp [List.count_append, p1, List.count_cons, hd]
      · simp [p3, hb]
      · right; simp [List.count_append, List.count_cons]; omega
    · -- a single colon followed by more
      simp only [not_or, Bool.not_eq_false, ne_eq, not_not] at h2 h8
      obtain ⟨_, hp⟩ := xtoi_ok s h2.1
      obtain ⟨p1, p2, p3⟩ := plain_counts _ hp
      have e1 := eq_cons_of_head? _ _ h8.1
      obtain ⟨pre, hs, hd, hb, he, hc, hi⟩ := ih _ _ _ h
      refine ⟨s.take (xtoi s).2.1 ++ ':' :: pre, ?_, ?_, ?_, he, fun h0 => ?_, fun hneg => ?_⟩
      · conv_lhs => rw [← List.take_append_drop (xtoi s).2.1 s, e1, hs]
        simp
      · rcases hd with hd | hd
        · left; simp [List.count_append, p1, List.count_cons, hd]
        · right; simp [List.count_append, p1, List.count_cons, hd]
      · simp [p3, hb]
      · rcases hc h0 with hc | hc
        · exact Or.inl hc
        · right; simp [List.count_append, List.count_cons]; omega
      · have := hi hneg
        simp [List.count_append, List.count_cons, p2]
        omega
    · -- the loop condition fails
      simp only [Option.some.injEq, Prod.mk.injEq] at h
      obtain ⟨rfl, rfl, rfl⟩ := h
      exact ⟨[], by simp, by simp, by simp, id, fun h => Or.inl h, fun _ => by omega⟩

theorem parseIPv6Rest_ok (e0 : Int) (s : GoString) (h : parseIPv6Rest e0 s = true) :
    (s.count '.' = 0 ∨ s.count '.' = 3) ∧ '[' ∉ s ∧ (0 ≤ e0 ∨ 2 ≤ s.count ':') := by
  unfold parseIPv6Rest at h
  cases hr : parseIPv6Loop 8 0 e0 s with
  | none => simp [hr] at h
  | some res =>
    obtain ⟨i, e, r⟩ := res
    simp only [hr] at h
    obtain ⟨pre, hs, hd, hb, _, hc, hi⟩ := parseIPv6Loop_ok _ _ _ _ _ _ _ hr
    split_ifs at h with h1 h2 h3 h4
    · simp only [ne_eq, List.length_eq_zero, not_not] at h1
      subst h1
      simp only [List.append_nil] at hs
      subst hs
      exact ⟨hd, hb, hc (by omega)⟩
    · simp only [ne_eq, List.length_eq_zero, not_not] at h1
      subst h1
      simp only [List.append_nil] at hs
      subst hs
      refine ⟨hd, hb, Or.inr ?_⟩
      have := hi (by omega)
      simp only [IPv6len] at h2
      omega

/-- An accepted IPv6 literal has at least two colons, no bracket, and no dot or
exactly the three dots of its IPv4 tail. -/
theorem parseIPv6_ok (s : GoString) (h : parseIPv6 s = true) :
    (s.count '.' = 0 ∨ s.count '.' = 3) ∧ '[' ∉ s ∧ 2 ≤ s.count ':' := by
  unfold parseIPv6 at h
  split_ifs at h with h1 h2
  · obtain ⟨t, rfl⟩ : ∃ t, s = ':' :: ':' :: t := by
      match s, h1 with
      | a :: b :: t, h1 =>
        simp only [List.get?_cons_zero, Option.some.injEq, List.get?_cons_succ] at h1
        exact ⟨t, by rw [h1.2.1, h1.2.2]⟩
    simp only [List.drop_succ_cons, List.drop_zero, List.length_eq_zero] at h2
    subst h2
    decide
  · obtain ⟨t, rfl⟩ : ∃ t, s = ':' :: ':' :: t := by
      match s, h1 with
      | a :: b :: t, h1 =>
        simp only [List.get?_cons_zero, Option.some.injEq, List.get?_cons_succ] at h1
        exact ⟨t, by rw [h1.2.1, h1.2.2]⟩
    simp only [List.drop_succ_cons, List.drop_zero] at h
    obtain ⟨hd, hb, _⟩ := parseIPv6Rest_ok _ _ h
    refine ⟨?_, ?_, ?_⟩
    · simpa [List.count_cons] using hd
    · simpa using hb
    · simp [List.count_cons]
  · obtain ⟨hd, hb, hc⟩ := parseIPv6Rest_ok _ _ h
    refine ⟨hd, hb, ?_⟩
    rcases hc with hc | hc
    · omega
    · exact hc

theorem ParseIPScan_ok (s t : GoString) (h : ParseIPScan s t = true) :
    parseIPv4 s = true ∨ parseIPv6 s = true := by
  induction t with
  | nil => simp [ParseIPScan] at h
  | cons c cs ih =>
    simp only [ParseIPScan] at h
    split_ifs at h with h1 h2
    · exact Or.inl h
    · exact Or.inr h
    · exact ih h

/-- Every string `net.ParseIP` accepts has no bracket, never exactly one colon,
and no dot or exactly three. -/
theorem ParseIP_ok (s : GoString) (h : ParseIP s = true) :
    s.count ':' ≠ 1 ∧ (s.count '.' = 0 ∨ s.count '.' = 3) ∧ '[' ∉ s := by
  rcases ParseIPScan_ok s s h with h4 | h6
  · obtain ⟨p1, p2, p3⟩ := parseIPv4_ok s h4
    exact ⟨by omega, Or.inr p1, p3⟩
  · obtain ⟨p1, p2, p3⟩ := parseIPv6_ok s h6
    exact ⟨by omega, p1, p2⟩

/-! ## Lemmas: `parseTarget` and `Build` -/

theorem ParseIP_nil : ParseIP [] = false := by rfl

theorem ParseIP_one_colon (s : GoString) (h : s.count ':' = 1) : ParseIP s = false := by
  cases hp : ParseIP s with
  | false => rfl
  | true => exact absurd h (ParseIP_ok s hp).1

theorem ParseIP_bracket (s : GoString) (h : '[' ∈ s) : ParseIP s = false := by
  cases hp : ParseIP s with
  | false => rfl
  | true => exact absurd h (ParseIP_ok s hp).2.2

theorem ParseIP_one_dot (s : GoString) (h : s.count '.' = 1) : ParseIP s = false := by
  cases hp : ParseIP s with
  | false => rfl
  | true =>
    rcases (ParseIP_ok s hp).2.1 with h0 | h3
    · omega
    · omega

theorem count_of_not_mem (c : Char) (s : GoString) (h : c ∉ s) : s.count c = 0 :=
  List.count_eq_zero.mpr h

/-- The result of `parseTarget` on `host:port` with plain parts. -/
theorem parseTarget_plain (h p dp : GoString) (pne : p ≠ []) (hh : NoSep h) (hp : NoSep p) :
    parseTarget (h ++ ':' :: p) dp = (if h = [] then "localhost".data else h, p, none) := by
  have hip : ParseIP (h ++ ':' :: p) = false :=
    ParseIP_one_colon _ (by
      simp [List.count_append, List.count_cons, count_of_not_mem _ _ hh.1,
        count_of_not_mem _ _ hp.1])
  have hs := SplitHostPort_plain h p hh.1 hh.2.1 hh.2.2 hp.1 hp.2.1 hp.2.2
  have hne : h ++ ':' :: p ≠ [] := by simp
  simp only [parseTarget, hne, if_false, hip, hs, pne, Bool.false_eq_true]
  split_ifs <;> rfl

/-- The loop of `updatePodAddrs` appends, in order, the addresses of the running pods. -/
theorem podAddrsLoop_eq (r : tamResolver) (items : List Pod) (acc : List Address) :
    podAddrsLoop r items acc = acc ++ runningAddrs r.port items := by
  induction items generalizing acc with
  | nil => simp [podAddrsLoop, runningAddrs]
  | cons pod rest ih =>
    by_cases hph : pod.Status.Phase = PodRunning
    · simp [podAddrsLoop, hph, ih, podAddr, runningAddrs]
    · simp [podAddrsLoop, hph, ih, runningAddrs]

theorem step_invariant (s : Session) (t : Task) (h : s.r.wg = 1 ∧ s.close ≠ .returned) :
    (step s t).r.wg = 1 ∧ (step s t).close ≠ .returned := by
  obtain ⟨h1, h2⟩ := h
  cases t with
  | watcher =>
    simp only [step, watcherStep]
    split
    · exact ⟨h1, h2⟩
    · split_ifs <;> exact ⟨h1, h2⟩
    · exact ⟨h1, h2⟩
  | close =>
    simp only [step, closeStep]
    split
    · exact ⟨h1, by simp⟩
    · rw [if_neg (by omega)]
      exact ⟨h1, h2⟩
    · exact ⟨h1, h2⟩

theorem run_invariant (s : Session) (schedule : List Task)
    (h : s.r.wg = 1 ∧ s.close ≠ .returned) :
    (run s schedule).r.wg = 1 ∧ (run s schedule).close ≠ .returned := by
  induction schedule generalizing s with
  | nil => exact h
  | cons t ts ih => exact ih (step s t) (step_invariant s t h)

theorem Build_ok_wg (env : Cluster) (endpoint : GoString) (t : tamResolver)
    (h : Build env endpoint = .ok t) : t.wg = 1 := by
  unfold Build at h
  split at h
  · simp at h
  · dsimp only at h
    split_ifs at h
    simp only [BuildResult.ok.injEq] at h
    rw [← h]

theorem head?_append_of_ne_nil (a b : GoString) (h : a ≠ []) : (a ++ b).head? = a.head? := by
  cases a with
  | nil => exact absurd rfl h
  | cons x xs => rfl

/-- The retry split of `target:defaultPort` when the default port has no colon:
the port found is the default port, the host is the target without its brackets. -/
theorem SplitHostPort_retry (target dp host port : GoString) (hne : target ≠ [])
    (hdp : ':' ∉ dp) (h2 : SplitHostPort (target ++ ':' :: dp) = .ok (host, port)) :
    port = dp ∧ host = stripBrackets target := by
  have hdrop : List.drop (target.length + 1) (target ++ ':' :: dp) = dp := by
    simp
  unfold SplitHostPort at h2
  rw [LastIndexByteString_append_cons target dp ':' hdp] at h2
  simp only [head?_append_of_ne_nil target _ hne] at h2
  by_cases hb : target.head? = some '['
  · simp only [hb, if_true] at h2
    cases he : IndexByteString (target ++ ':' :: dp) ']' with
    | none => simp [he, addrErr] at h2
    | some end_ =>
      simp only [he] at h2
      split_ifs at h2 with c1 c2 c3
      · simp [addrErr] at h2
      · unfold splitHostPortTail at h2
        split_ifs at h2 with c4 c5
        · simp [addrErr] at h2
        · simp [addrErr] at h2
        · simp only [Except.ok.injEq, Prod.mk.injEq, hdrop] at h2
          obtain ⟨hh, hp⟩ := h2
          refine ⟨hp.symm, ?_⟩
          have hget := (IndexByteString_some _ _ _ he).2
          have hlt : end_ < target.length := by omega
          have hget2 : target.get? end_ = some ']' := by
            rw [List.get?_eq_getElem?] at hget ⊢
            rwa [List.getElem?_append_left hlt] at hget
          have hlast : target.getLast? = some ']' := by
            rw [List.getLast?_eq_getElem?]
            have : target.length - 1 = end_ := by omega
            rw [this]
            simpa using hget2
          have htake : List.take end_ (target ++ ':' :: dp) = target.dropLast := by
            rw [List.take_append_of_le_length (by omega), List.dropLast_eq_take]
            congr 1
            omega
          rw [← hh, htake]
          simp [stripBrackets, hb, hlast]
      · simp [addrErr] at h2
      · simp [addrErr] at h2
  · simp only [hb, if_false, List.take_left] at h2
    split_ifs at h2 with c1
    · simp [addrErr] at h2
    · unfold splitHostPortTail at h2
      split_ifs at h2 with c4 c5
      · simp [addrErr] at h2
      · simp [addrErr] at h2
      · simp only [Except.ok.injEq, Prod.mk.injEq, hdrop] at h2
        obtain ⟨hh, hp⟩ := h2
        subst hh
        refine ⟨hp.symm, ?_⟩
        simp [stripBrackets, hb]

/-- The outcome of `Build` once the target has parsed and its host has two segments. -/
theorem Build_of_two_segments (env : Cluster) (endpoint host port a b : GoString)
    (h : parseTarget endpoint defaultPort = (host, port, none))
    (hsp : Split host '.' = [a, b]) :
    Build env endpoint =
      if env.inClusterConfig = false then .fatal "get cluster config failed"
      else if env.newForConfig = false then .fatal "initialize clientset failed"
      else .ok ⟨a, b, port, "app=".data ++ a, false, 1⟩ := by
  unfold Build
  rw [h]
  simp only [hsp]
  simp

/-! ## The claims -/

/-- C1 (amended): when `parseTarget` succeeds with host `host`, `Build` returns no error
exactly when `host` splits on the dot into exactly two segments, these two segments
are the appName and the namespace of the resolver (nothing requires them to be
non-empty), and for any other segment count `Build` fails with `errWrongHostFormat`. -/
theorem Build_host_format (env : Cluster) (endpoint host port : GoString)
    (h : parseTarget endpoint defaultPort = (host, port, none)) :
    ((∀ err, Build env endpoint ≠ .error err) ↔ (Split host '.').length = 2) ∧
      ((Split host '.').length ≠ 2 → Build env endpoint = .error .errWrongHostFormat) ∧
      (∀ t, Build env endpoint = .ok t → Split host '.' = [t.appName, t.namespace_]) := by
  by_cases hl : (Split host '.').length = 2
  · obtain ⟨a, b, hab⟩ := List.length_eq_two.mp hl
    have hb := Build_of_two_segments env endpoint host port a b h hab
    refine ⟨⟨fun _ => hl, fun _ err => ?_⟩, fun hn => absurd hl hn, fun t ht => ?_⟩
    · rw [hb]
      split_ifs <;> simp
    · rw [hb] at ht
      split_ifs at ht
      simp only [BuildResult.ok.injEq] at ht
      rw [hab, ← ht]
  · have hb : Build env endpoint = .error .errWrongHostFormat := by
      unfold Build
      rw [h]
      simp [hl]
    refine ⟨⟨fun hne => absurd hb (hne _), fun h2 => absurd h2 hl⟩, fun _ => hb,
      fun t ht => ?_⟩
    rw [hb] at ht
    exact BuildResult.noConfusion ht

theorem Build_host_format_witness :
    Split "svc.default".data '.' = ["svc".data, "default".data] ∧
      Build ⟨true, true⟩ "a.b.c:80".data = .error .errWrongHostFormat :=
  ⟨(Build_host_format ⟨true, true⟩ "svc.default:9090".data "svc.default".data "9090".data
      (by decide)).2.2 ⟨"svc".data, "default".data, "9090".data, "app=svc".data, false, 1⟩
      (by decide),
   (Build_host_format ⟨true, true⟩ "a.b.c:80".data "a.b.c".data "80".data
      (by decide)).2.1 (by decide)⟩

/-- C1 (as stated) fails: the endpoints `.default:80` and `svc.:80` parse to the hosts
`.default` and `svc.`, which have an empty segment, and `Build` does not fail with
`errWrongHostFormat` but starts a resolver with an empty appName, or namespace. -/
theorem Build_empty_segment_counterexample :
    parseTarget ".default:80".data defaultPort = (".default".data, "80".data, none) ∧
      Build ⟨true, true⟩ ".default:80".data =
        .ok ⟨[], "default".data, "80".data, "app=".data, false, 1⟩ ∧
      parseTarget "svc.:80".data defaultPort = ("svc.".data, "80".data, none) ∧
      Build ⟨true, true⟩ "svc.:80".data =
        .ok ⟨"svc".data, [], "80".data, "app=svc".data, false, 1⟩ := by
  decide

/-- C2 (the code departs from the claim): once `Build` has started a session, under every
schedule of watcher and `Close` steps the wait-group counter stays at 1, also after
the watcher has observed the cancellation and returned, because the watcher never
decrements it; the wait in `Close` is never satisfied and `Close` never returns. -/
theorem Close_never_returns (env : Cluster) (endpoint : GoString) (t : tamResolver)
    (schedule : List Task) (h : Build env endpoint = .ok t) :
    (run (startSession t) schedule).r.wg = 1 ∧
      (run (startSession t) schedule).close ≠ .returned :=
  run_invariant (startSession t) schedule
    ⟨Build_ok_wg env endpoint t h, by simp [startSession]⟩

theorem Close_never_returns_witness :
    (run (startSession ⟨"svc".data, "default".data, "9090".data, "app=svc".data, false, 1⟩)
        [.close, .watcher, .watcher]).watcher = .returned ∧
      (run (startSession ⟨"svc".data, "default".data, "9090".data, "app=svc".data, false, 1⟩)
        [.close, .watcher, .watcher]).r.wg = 1 ∧
      (run (startSession ⟨"svc".data, "default".data, "9090".data, "app=svc".data, false, 1⟩)
        [.close, .watcher, .watcher, .close, .close]).close ≠ .returned :=
  ⟨by decide,
   (Close_never_returns ⟨true, true⟩ "svc.default:9090".data _ [.close, .watcher, .watcher]
      (by decide)).1,
   (Close_never_returns ⟨true, true⟩ "svc.default:9090".data _
      [.close, .watcher, .watcher, .close, .close] (by decide)).2⟩

/-- C3: for every listed snapshot `items`, `updatePodAddrs` publishes, in list order
and without deduplication, the address `PodIP:port` of exactly the pods whose phase
is Running; the published list is a function of the snapshot and the port alone,
a pod in any other phase contributes nothing, and the list is empty when no pod of
the snapshot is Running. -/
theorem updatePodAddrs_running_only (r : tamResolver) (items : List Pod) :
    updatePodAddrs r (.ok items) = .ok { Addresses := runningAddrs r.port items } ∧
      (∀ addr ∈ runningAddrs r.port items, ∃ pod ∈ items,
        pod.Status.Phase = PodRunning ∧ addr.Addr = pod.Status.PodIP ++ ":".data ++ r.port) ∧
      ((∀ pod ∈ items, pod.Status.Phase ≠ PodRunning) →
        updatePodAddrs r (.ok items) = .ok { Addresses := [] }) := by
  have h := podAddrsLoop_eq r items []
  simp only [List.nil_append] at h
  refine ⟨by simp only [updatePodAddrs, h], ?_, fun hall => ?_⟩
  · intro addr haddr
    simp only [runningAddrs, List.mem_map, List.mem_filter, decide_eq_true_eq] at haddr
    obtain ⟨pod, ⟨hm, hph⟩, rfl⟩ := haddr
    exact ⟨pod, hm, hph, rfl⟩
  · have hf : runningAddrs r.port items = [] := by
      simp only [runningAddrs, List.map_eq_nil_iff, List.filter_eq_nil_iff, decide_eq_true_eq]
      exact hall
    simp only [updatePodAddrs, h, hf]

theorem updatePodAddrs_running_only_witness :
    updatePodAddrs res1 (.ok [pod1, pod2, pod1]) =
        .ok { Addresses := [⟨"10.0.0.1:9090".data⟩, ⟨"10.0.0.1:9090".data⟩] } ∧
      updatePodAddrs res1 (.ok [pod2, pod3]) = .ok { Addresses := [] } :=
  ⟨(updatePodAddrs_running_only res1 [pod1, pod2, pod1]).1.trans (by decide),
   (updatePodAddrs_running_only res1 [pod2, pod3]).2.2 (by decide)⟩

/-- C4: for every target that `net.ParseIP` accepts and every default port,
`parseTarget` succeeds and returns the target unchanged as host together with the
default port. -/
theorem parseTarget_ip_literal (target dp : GoString) (h : ParseIP target = true) :
    parseTarget target dp = (target, dp, none) := by
  have hne : target ≠ [] := by
    intro e
    rw [e, ParseIP_nil] at h
    exact Bool.noConfusion h
  simp [parseTarget, hne, h]

theorem parseTarget_ip_literal_witness :
    ParseIP "10.0.0.1".data = true ∧
      parseTarget "10.0.0.1".data "443".data = ("10.0.0.1".data, "443".data, none) :=
  ⟨by decide, parseTarget_ip_literal "10.0.0.1".data "443".data (by decide)⟩

/-- C5: for non-empty `h` and `p` without colon or bracket and every default port,
`parseTarget` of `h:p` returns `(h, p)` and `parseTarget` of `[h]:p` returns `(h, p)`
with the brackets stripped; the explicit port wins over the default port. -/
theorem parseTarget_host_port (h p dp : GoString) (hne : h ≠ []) (pne : p ≠ [])
    (hh : NoSep h) (hp : NoSep p) :
    parseTarget (h ++ ":".data ++ p) dp = (h, p, none) ∧
      parseTarget ("[".data ++ h ++ "]:".data ++ p) dp = (h, p, none) := by
  constructor
  · have e : h ++ ":".data ++ p = h ++ ':' :: p := by simp
    rw [e, parseTarget_plain h p dp pne hh hp, if_neg hne]
  · have e : "[".data ++ h ++ "]:".data ++ p = '[' :: h ++ ']' :: ':' :: p := by simp
    have hip : ParseIP ('[' :: h ++ ']' :: ':' :: p) = false :=
      ParseIP_bracket _ (by simp)
    have hs := SplitHostPort_bracket h p hh.2.1 hh.2.2 hp.1 hp.2.1 hp.2.2
    have hn : '[' :: h ++ ']' :: ':' :: p ≠ [] := by simp
    rw [e]
    simp only [parseTarget, hn, if_false, hip, hs, pne, hne, Bool.false_eq_true]

theorem parseTarget_host_port_witness :
    parseTarget "ipv4-host:80".data "443".data = ("ipv4-host".data, "80".data, none) ∧
      parseTarget "[ipv4-host]:80".data "443".data = ("ipv4-host".data, "80".data, none) :=
  parseTarget_host_port "ipv4-host".data "80".data "443".data (by decide) (by decide)
    (by decide) (by decide)

/-- C6: for every non-empty target that is no IP literal and does not split as given,
and every default port (a port string, so one without a colon; `Build`, the only
caller, passes the constant `8080`), when the retry split of `target:defaultPort`
succeeds with `(host, port)`, `parseTarget` returns `(host, defaultPort)`: the
returned port is the default port and the returned host is the target with its
enclosing square brackets stripped. -/
theorem parseTarget_retry_default_port (target dp host port : GoString)
    (hne : target ≠ []) (hip : ParseIP target = false)
    (h1 : ∃ err, SplitHostPort target = .error err)
    (h2 : SplitHostPort (target ++ ":".data ++ dp) = .ok (host, port))
    (hdp : ':' ∉ dp) :
    parseTarget target dp = (host, dp, none) ∧ port = dp ∧
      host = stripBrackets target := by
  have e : target ++ ":".data ++ dp = target ++ ':' :: dp := by simp
  obtain ⟨hport, hhost⟩ := SplitHostPort_retry target dp host port hne hdp (e ▸ h2)
  refine ⟨?_, hport, hhost⟩
  simp only [parseTarget, hne, if_false, hip, Bool.false_eq_true]
  obtain ⟨err, hs⟩ := h1
  simp only [hs, h2]
  rw [hport]

theorem parseTarget_retry_default_port_witness :
    parseTarget "[ipv6-host]".data "443".data = ("ipv6-host".data, "443".data, none) ∧
      parseTarget "www.google.com".data "443".data =
        ("www.google.com".data, "443".data, none) ∧
      parseTarget "svc.default".data defaultPort = ("svc.default".data, defaultPort, none) :=
  ⟨(parseTarget_retry_default_port "[ipv6-host]".data "443".data "ipv6-host".data
      "443".data (by decide) (by decide) ⟨_, rfl⟩ (by decide) (by decide)).1,
   (parseTarget_retry_default_port "www.google.com".data "443".data "www.google.com".data
      "443".data (by decide) (by decide) ⟨_, rfl⟩ (by decide) (by decide)).1,
   (parseTarget_retry_default_port "svc.default".data defaultPort "svc.default".data
      defaultPort (by decide) (by decide) ⟨_, rfl⟩ (by decide) (by decide)).1⟩

/-- The default port of the program has no colon, so the retry result above covers
every call `Build` makes. -/
theorem defaultPort_no_colon : ':' ∉ defaultPort := by decide

/-- Why the port must be colon-free: `parseTarget` called directly with the string
`b]:80` as default port (no caller does so) splits `[a:b]:80` on the last colon
and yields host `a:b` and port `80`. -/
theorem parseTarget_retry_colon_in_default_port :
    parseTarget "[a".data "b]:80".data = ("a:b".data, "80".data, none) := by
  decide

/-- C7: for every default port and every target that is no IP literal and whose
host/port split succeeds with an empty port, `parseTarget` fails with
`errEndsWithColon` and returns the empty host and the empty port. -/
theorem parseTarget_ends_with_colon (target dp host : GoString)
    (hip : ParseIP target = false) (hs : SplitHostPort target = .ok (host, [])) :
    parseTarget target dp = ([], [], some .errEndsWithColon) := by
  have hne : target ≠ [] := by
    intro e
    rw [e, SplitHostPort_nil] at hs
    simp [addrErr] at hs
  simp only [parseTarget, hne, if_false, hip, hs, Bool.false_eq_true, if_true]

theorem parseTarget_ends_with_colon_witness :
    parseTarget "host:".data "443".data = ([], [], some .errEndsWithColon) ∧
      parseTarget "[::1]:".data "443".data = ([], [], some .errEndsWithColon) :=
  ⟨parseTarget_ends_with_colon "host:".data "443".data "host".data (by decide) (by decide),
   parseTarget_ends_with_colon "[::1]:".data "443".data "::1".data (by decide) (by decide)⟩

/-- C8: for every non-empty port `p` without colon or bracket and every default port,
`parseTarget` of `:p` succeeds and returns the host `localhost` and the port `p`. -/
theorem parseTarget_empty_host (p dp : GoString) (pne : p ≠ []) (hp : NoSep p) :
    parseTarget (":".data ++ p) dp = ("localhost".data, p, none) := by
  have h := parseTarget_plain [] p dp pne (by decide) hp
  simpa using h

theorem parseTarget_empty_host_witness :
    parseTarget ":80".data "443".data = ("localhost".data, "80".data, none) :=
  parseTarget_empty_host "80".data "443".data (by decide) (by decide)

/-- C9: for a service name and a namespace without dot, colon or bracket and a
non-empty port without colon or bracket, `Build` returns no error on
`svc.ns:p` nor on `svc.ns`, and the resolver it starts has appName `svc`,
namespace `ns`, label `app=svc`, and port `p`, or `8080` when the port is omitted. -/
theorem Build_descriptor (svc ns p : GoString) (pne : p ≠ [])
    (hs : NoSep svc) (hsd : '.' ∉ svc) (hn : NoSep ns) (hnd : '.' ∉ ns) (hp : NoSep p) :
    Build ⟨true, true⟩ (svc ++ ".".data ++ ns ++ ":".data ++ p) =
        .ok ⟨svc, ns, p, "app=".data ++ svc, false, 1⟩ ∧
      Build ⟨true, true⟩ (svc ++ ".".data ++ ns) =
        .ok ⟨svc, ns, "8080".data, "app=".data ++ svc, false, 1⟩ ∧
      (∀ env err, Build env (svc ++ ".".data ++ ns ++ ":".data ++ p) ≠ .error err) ∧
      (∀ env err, Build env (svc ++ ".".data ++ ns) ≠ .error err) := by
  have hne : svc ++ '.' :: ns ≠ [] := by simp
  have hh : NoSep (svc ++ '.' :: ns) := by
    refine ⟨?_, ?_, ?_⟩
    · simp [hs.1, hn.1]
    · simp [hs.2.1, hn.2.1]
    · simp [hs.2.2, hn.2.2]
  have e1 : svc ++ ".".data ++ ns ++ ":".data ++ p = (svc ++ '.' :: ns) ++ ':' :: p := by simp
  have e2 : svc ++ ".".data ++ ns = svc ++ '.' :: ns := by simp
  have t1 : parseTarget ((svc ++ '.' :: ns) ++ ':' :: p) defaultPort
      = (svc ++ '.' :: ns, p, none) := by
    rw [parseTarget_plain _ p _ pne hh hp, if_neg hne]
  have hip : ParseIP (svc ++ '.' :: ns) = false :=
    ParseIP_one_dot _ (by
      simp [List.count_append, List.count_cons, count_of_not_mem _ _ hsd,
        count_of_not_mem _ _ hnd])
  have s1 : SplitHostPort (svc ++ '.' :: ns) = addrErr (svc ++ '.' :: ns) missingPort := by
    simp only [SplitHostPort, LastIndexByteString_of_not_mem _ _ hh.1]
  have s2 : SplitHostPort ((svc ++ '.' :: ns) ++ ":".data ++ defaultPort)
      = .ok (svc ++ '.' :: ns, defaultPort) := by
    have := SplitHostPort_plain (svc ++ '.' :: ns) defaultPort hh.1 hh.2.1 hh.2.2
      (by decide) (by decide) (by decide)
    simpa using this
  have t2 : parseTarget (svc ++ '.' :: ns) defaultPort
      = (svc ++ '.' :: ns, defaultPort, none) := by
    simp only [parseTarget, hne, if_false, hip, s1, addrErr, s2, Bool.false_eq_true]
  have sp : Split (svc ++ '.' :: ns) '.' = [svc, ns] := Split_two svc ns hsd hnd
  rw [e1, e2]
  refine ⟨?_, ?_, ?_, ?_⟩
  · rw [Build_of_two_segments _ _ _ _ _ _ t1 sp]
    rfl
  · rw [Build_of_two_segments _ _ _ _ _ _ t2 sp]
    rfl
  · intro env err
    rw [Build_of_two_segments _ _ _ _ _ _ t1 sp]
    split_ifs <;> simp
  · intro env err
    rw [Build_of_two_segments _ _ _ _ _ _ t2 sp]
    split_ifs <;> simp

theorem Build_descriptor_witness :
    Build ⟨true, true⟩ "svc.default:9090".data =
        .ok ⟨"svc".data, "default".data, "9090".data, "app=svc".data, false, 1⟩ ∧
      Build ⟨true, true⟩ "svc.default".data =
        .ok ⟨"svc".data, "default".data, "8080".data, "app=svc".data, false, 1⟩ :=
  ⟨(Build_descriptor "svc".data "default".data "9090".data (by decide) (by decide) (by decide)
      (by decide) (by decide) (by decide)).1,
   (Build_descriptor "svc".data "default".data "9090".data (by decide) (by decide) (by decide)
      (by decide) (by decide) (by decide)).2.1⟩

/-- C10: for every target `net.ParseIP` accepts, `parseTarget` returns the literal as
host, the literal has no dot or exactly three dots, and `Build` fails with
`errWrongHostFormat` whatever the cluster answers: no session is created. -/
theorem Build_ip_literal_rejected (env : Cluster) (target : GoString)
    (h : ParseIP target = true) :
    parseTarget target defaultPort = (target, defaultPort, none) ∧
      (target.count '.' = 0 ∨ target.count '.' = 3) ∧
      Build env target = .error .errWrongHostFormat := by
  have hne : target ≠ [] := by
    intro e
    rw [e, ParseIP_nil] at h
    exact Bool.noConfusion h
  have t : parseTarget target defaultPort = (target, defaultPort, none) := by
    simp [parseTarget, hne, h]
  have hd := (ParseIP_ok target h).2.1
  have hl : (Split target '.').length ≠ 2 := by
    rw [Split_length]
    omega
  refine ⟨t, hd, ?_⟩
  simp only [Build, t, hl, ne_eq, not_false_eq_true, if_true]

theorem Build_ip_literal_rejected_witness :
    Build ⟨true, true⟩ "10.0.0.1".data = .error .errWrongHostFormat ∧
      Build ⟨true, true⟩ "::ffff:10.0.0.1".data = .error .errWrongHostFormat ∧
      Build ⟨true, true⟩ "fe80::1".data = .error .errWrongHostFormat :=
  ⟨(Build_ip_literal_rejected ⟨true, true⟩ "10.0.0.1".data (by decide)).2.2,
   (Build_ip_literal_rejected ⟨true, true⟩ "::ffff:10.0.0.1".data (by decide)).2.2,
   (Build_ip_literal_rejected ⟨true, true⟩ "fe80::1".data (by decide)).2.2⟩


end TamResolver
